import Mathlib

/-!
Verification development for the composite-filename file server
(`src/index.js`).  JavaScript strings are modelled as `List Char`
(filenames in this system are plain names without path separators;
the model of `path.extname` / `path.basename` below covers exactly
that slash-free case, which is the only one the routes exercise for
uploaded names).  JavaScript numbers that hold timestamps, sizes and
counters are modelled as `Nat` / `Int` (exact; the code never reaches
the 2^53 double-precision limit for these values).  `Date` objects
serialised with `toISOString()` are modelled by their underlying
millisecond values.
-/

namespace FileServer

/-- Shorthand: the character list of a string literal. -/
def S (s : String) : List Char := s.data

/-- The character class `[a-zA-Z0-9._-]` of the sanitising regex in
`storage.filename` (src/index.js line 81). -/
def isAllowedChar (c : Char) : Bool :=
  c.isAlpha || c.isDigit || c = '.' || c = '_' || c = '-'

/-- Model of the sanitiser `originalName.replace` with the global
regex of the class above: every character outside the class is
replaced (not deleted) by an underscore. -/
def sanitize (l : List Char) : List Char :=
  l.map (fun c => if isAllowedChar c then c else '_')

/-- Index of the last `'.'` of a name, if any. -/
def lastDotIdx (l : List Char) : Option Nat :=
  ((List.range l.length).filter (fun i => l.get? i = some '.')).getLast?

/-- Model of the Node `path.extname` / `path.basename(name, ext)` pair
for a slash-free name: the extension is the suffix from the last dot,
except that a dot in first position yields no extension (hidden files
such as `.bashrc`) and the special name `..` has no extension; the
base is the name with that suffix removed. -/
def splitExt (l : List Char) : List Char × List Char :=
  match lastDotIdx l with
  | none => (l, [])
  | some 0 => (l, [])
  | some i => if l = ['.', '.'] then (l, []) else (l.take i, l.drop i)

/-- Decimal digit character (used to print `Date.now()` timestamps). -/
def digitChar (d : Nat) : Char :=
  match d with
  | 0 => '0' | 1 => '1' | 2 => '2' | 3 => '3' | 4 => '4'
  | 5 => '5' | 6 => '6' | 7 => '7' | 8 => '8' | _ => '9'

/-- Fuel-driven most-significant-first decimal printer. -/
def natToDecGo : Nat → Nat → List Char
  | 0, _ => []
  | fuel + 1, n =>
    if n < 10 then [digitChar n]
    else natToDecGo fuel (n / 10) ++ [digitChar (n % 10)]

/-- JavaScript template-literal rendering `${n}` of a non-negative
integer: its decimal digits. -/
def natToDec (n : Nat) : List Char := natToDecGo (n + 1) n

/-- JavaScript whitespace skipped by `parseInt` (the ASCII members plus
NBSP; the remaining Unicode space code points are listed by value). -/
def isJsWhitespace (c : Char) : Bool :=
  c = ' ' || c = '\t' || c = '\n' || c = '\r' ||
  c.toNat = 11 || c.toNat = 12 || c.toNat = 160 ||
  c.toNat = 0xfeff || c.toNat = 0x2028 || c.toNat = 0x2029 ||
  (0x2000 ≤ c.toNat && c.toNat ≤ 0x200a) || c.toNat = 0x1680 ||
  c.toNat = 0x202f || c.toNat = 0x205f || c.toNat = 0x3000

/-- Hexadecimal digit test for the `0x` branch of `parseInt`. -/
def isHexDigitChar (c : Char) : Bool :=
  c.isDigit || ('a' ≤ c && c ≤ 'f') || ('A' ≤ c && c ≤ 'F')

/-- Numeric value of a hexadecimal digit character. -/
def hexDigitVal (c : Char) : Nat :=
  if c.isDigit then c.toNat - 48
  else if 'a' ≤ c && c ≤ 'f' then c.toNat - 87
  else c.toNat - 55

/-- Value of a most-significant-first decimal digit list. -/
def decValue (l : List Char) : Nat :=
  l.foldl (fun a c => 10 * a + (c.toNat - 48)) 0

/-- Value of a most-significant-first hexadecimal digit list. -/
def hexValue (l : List Char) : Nat :=
  l.foldl (fun a c => 16 * a + hexDigitVal c) 0

/-- Longest decimal-digit prefix, `none` when empty (`parseInt` NaN). -/
def parseDecDigits (l : List Char) : Option Nat :=
  let ds := l.takeWhile Char.isDigit
  if ds = [] then none else some (decValue ds)

/-- Longest hexadecimal-digit prefix, `none` when empty. -/
def parseHexDigits (l : List Char) : Option Nat :=
  let ds := l.takeWhile isHexDigitChar
  if ds = [] then none else some (hexValue ds)

/-- The unsigned part of ECMAScript `parseInt(s)` (no radix argument):
a `0x`/`0X` prefix switches to hexadecimal, otherwise the longest
leading run of decimal digits is taken; no digits means NaN. -/
def parseIntUnsigned (l : List Char) : Option Nat :=
  match l with
  | c :: x :: rest =>
    if c = '0' ∧ (x = 'x' ∨ x = 'X') then parseHexDigits rest
    else parseDecDigits l
  | _ => parseDecDigits l

/-- ECMAScript `parseInt(s)` with no radix: skip whitespace, optional
sign, then the unsigned parse; `none` models NaN. -/
def jsParseInt (l : List Char) : Option Int :=
  match l.dropWhile isJsWhitespace with
  | [] => none
  | c :: rest =>
    if c = '-' then (parseIntUnsigned rest).map (fun v => -(Int.ofNat v))
    else if c = '+' then (parseIntUnsigned rest).map Int.ofNat
    else (parseIntUnsigned (c :: rest)).map Int.ofNat

/-- Model of `filename.split` at the dash separator
(src/index.js line 175). -/
def splitOnDash : List Char → List (List Char)
  | [] => [[]]
  | c :: rest =>
    if c = '-' then [] :: splitOnDash rest
    else
      match splitOnDash rest with
      | [] => [[c]]
      | p :: ps => (c :: p) :: ps

/-- Model of `parts.join` with the dash separator
(src/index.js line 180). -/
def joinDash : List (List Char) → List Char
  | [] => []
  | [p] => p
  | p :: ps => p ++ '-' :: joinDash ps

/-- Result of a successful `parseFilename`. -/
structure ParsedFile where
  uploadedTimestamp : Int
  fileId : List Char
  originalName : List Char
  deriving Repr, DecidableEq

/-- Model of `parseFilename` (src/index.js lines 174-185): split on
dashes, need at least three segments, `parseInt` the first, the second
is the id, the rest re-joined with dashes is the original name;
`null` when the timestamp is NaN or the id or name is the empty
(falsy) string. -/
def parseFilename (l : List Char) : Option ParsedFile :=
  match splitOnDash l with
  | p0 :: p1 :: p2 :: rest =>
    match jsParseInt p0 with
    | none => none
    | some ts =>
      let originalName := joinDash (p2 :: rest)
      if p1 = [] ∨ originalName = [] then none
      else some ⟨ts, p1, originalName⟩
  | _ => none

/-- Model of `storage.filename` (src/index.js lines 77-83): the stored
name is the template
`${Date.now()}-${fileId}-${sanitizedName}${originalExtension}`
where `sanitizedName` sanitises only the base name
(`path.basename(originalname, ext)`) and the extension is appended
unchanged. -/
def encodeFilename (t : Nat) (fileId : List Char) (originalname : List Char) :
    List Char :=
  let ext := (splitExt originalname).2
  let sBase := sanitize (splitExt originalname).1
  natToDec t ++ '-' :: fileId ++ '-' :: (sBase ++ ext)

/-- The static extension-to-category table of `getFileType`
(src/index.js lines 116-125), as an association list of own
properties in source order. -/
def typeMapList : List (List Char × List Char) :=
  [(S "jpg", S "image"), (S "jpeg", S "image"), (S "png", S "image"),
   (S "gif", S "image"), (S "webp", S "image"), (S "bmp", S "image"),
   (S "ico", S "image"),
   (S "pdf", S "pdf"),
   (S "doc", S "document"), (S "docx", S "document"),
   (S "xls", S "spreadsheet"), (S "xlsx", S "spreadsheet"),
   (S "ppt", S "presentation"), (S "pptx", S "presentation"),
   (S "txt", S "text"), (S "csv", S "text"), (S "json", S "text"),
   (S "md", S "text"), (S "xml", S "text"), (S "log", S "text"),
   (S "js", S "code"), (S "html", S "code"), (S "css", S "code"),
   (S "php", S "code"), (S "py", S "code"), (S "c", S "code"),
   (S "cpp", S "code"), (S "java", S "code"), (S "sh", S "code"),
   (S "zip", S "archive"), (S "tar", S "archive"), (S "gz", S "archive"),
   (S "rar", S "archive"), (S "7z", S "archive"),
   (S "mp3", S "audio"), (S "wav", S "audio"), (S "ogg", S "audio"),
   (S "flac", S "audio"),
   (S "mp4", S "video"), (S "mov", S "video"), (S "avi", S "video"),
   (S "webm", S "video"), (S "mkv", S "video")]

/-- Own-property component of the lookup `typeMap[ext]` with the
`other` default: the category string that reaches the callers whenever
the key does not hit an inherited `Object.prototype` member (the full
JavaScript lookup, prototype chain included, is `getFileTypeJs`
below). -/
def lookupType (ext : List Char) : List (List Char × List Char) → List Char
  | [] => S "other"
  | (k, v) :: rest => if ext = k then v else lookupType ext rest

/-- Model of `getFileType` (src/index.js lines 114-127): the value of
`path.extname(filename).toLowerCase().slice(1)` looked up in the
table, defaulting to `other`.  This is the category-string outcome; it
coincides with the real JavaScript lookup for every extension except
the two inherited property names covered by `getFileTypeJs`. -/
def getFileType (filename : List Char) : List Char :=
  lookupType (((splitExt filename).2.map Char.toLower).drop 1) typeMapList

/-- The key `path.extname(filename).toLowerCase().slice(1)` used for
the table lookup. -/
def extKey (filename : List Char) : List Char :=
  ((splitExt filename).2.map Char.toLower).drop 1

/-- Own-property lookup in the table, `none` for a missing key. -/
def lookupTypeOwn (ext : List Char) :
    List (List Char × List Char) → Option (List Char)
  | [] => none
  | (k, v) :: rest => if ext = k then some v else lookupTypeOwn ext rest

/-- The `Object.prototype` member names an object-literal lookup
resolves when the own properties miss, restricted to the all-lowercase
ones — the only ones reachable here because the code lowercases the
extension first (`toString`, `valueOf`, `hasOwnProperty`,
`isPrototypeOf`, `propertyIsEnumerable`, `toLocaleString` and the
getter/setter helpers all contain an uppercase letter). -/
def inheritedObjectProps : List (List Char) :=
  [S "constructor", S "__proto__"]

/-- Result of the real JavaScript expression
`typeMap[ext] || 'other'`: either a category string (an own table
value, or the `other` default when the lookup is `undefined`), or a
truthy non-string inherited member of `Object.prototype` (the
`Object` constructor function for key `constructor`, the prototype
object for key `__proto__`), for which the `|| 'other'` fallback does
not fire. -/
inductive TypeLookupResult where
  | category : List Char → TypeLookupResult
  | inheritedObject : TypeLookupResult
  deriving Repr, DecidableEq

/-- Model of `getFileType` with the prototype chain included: own
table properties first, then the inherited `Object.prototype` members,
then the `undefined`-to-`other` fallback. -/
def getFileTypeJs (filename : List Char) : TypeLookupResult :=
  match lookupTypeOwn (extKey filename) typeMapList with
  | some v => TypeLookupResult.category v
  | none =>
    if extKey filename ∈ inheritedObjectProps then
      TypeLookupResult.inheritedObject
    else TypeLookupResult.category (S "other")

/-- One record of the `fileMetadata` object (src/index.js lines 318-330).
`uploaded`, `lastAccessed` and `lastModified` hold the millisecond
values of the ISO strings the code stores. -/
structure FileRecord where
  id : List Char
  name : List Char
  size : Nat
  uploaded : Int
  type : List Char
  path : List Char
  originalName : List Char
  downloads : Nat
  lastAccessed : Option Nat
  lastModified : Nat
  deriving Repr, DecidableEq

/-- The in-memory `fileMetadata` map, keyed by file id. -/
def Store : Type := List Char → Option FileRecord

/-- Model of the plain property assignment
`fileMetadata[fileId] = record`. -/
def updStore (m : Store) (i : List Char) (r : FileRecord) : Store :=
  fun j => if j = i then some r else m j

/-- The `updates` object passed to `updateFileMetadata`: only the fields
the call sites ever supply, each optional (spread-merge semantics). -/
structure MetaUpdates where
  downloads : Option Nat := none
  lastAccessed : Option (Option Nat) := none
  size : Option Nat := none
  lastModified : Option Nat := none
  deriving Repr, DecidableEq

/-- Model of the spread merge of updates over the stored record:
provided fields overwrite, absent fields are kept. -/
def applyUpdates (r : FileRecord) (u : MetaUpdates) : FileRecord :=
  { r with
    downloads := u.downloads.getD r.downloads
    lastAccessed := u.lastAccessed.getD r.lastAccessed
    size := u.size.getD r.size
    lastModified := u.lastModified.getD r.lastModified }

/-- Model of `updateFileMetadata` (src/index.js lines 166-171): merge
the updates into the existing record, but only if a record for the id
exists — otherwise the store is left untouched. -/
def updateFileMetadata (m : Store) (i : List Char) (u : MetaUpdates) : Store :=
  match m i with
  | none => m
  | some r => updStore m i (applyUpdates r u)

/-- Result of a successful `fs.statSync`, millisecond timestamps. -/
structure FileStat where
  size : Nat
  mtime : Nat
  birthtime : Nat
  deriving Repr, DecidableEq

/-- The record created on first sight of a managed file during a listing
(src/index.js lines 318-331). -/
def firstSightRecord (p : ParsedFile) (entryPath entryName : List Char)
    (st : FileStat) : FileRecord :=
  { id := p.fileId
    name := p.originalName
    size := st.size
    uploaded := p.uploadedTimestamp
    type := getFileType entryName
    path := entryPath
    originalName := p.originalName
    downloads := 0
    lastAccessed := none
    lastModified := st.mtime }

/-- The per-entry metadata reconciliation of the listing route
(src/index.js lines 315-339): on a managed name, create the record if
absent, otherwise refresh `size`, `path`, `lastModified` and `type`
from the current stat and name. -/
def reconcileEntry (m : Store) (entryPath entryName : List Char)
    (st : FileStat) : Store :=
  match parseFilename entryName with
  | none => m
  | some p =>
    match m p.fileId with
    | none => updStore m p.fileId (firstSightRecord p entryPath entryName st)
    | some r =>
      updStore m p.fileId
        { r with
          size := st.size
          path := entryPath
          lastModified := st.mtime
          type := getFileType entryName }

/-- One entry of `fs.readdir(..., { withFileTypes: true })`; `stat = none`
models `fs.statSync` throwing for that entry (file vanished between the
listing and the stat). -/
structure DirEntry where
  name : List Char
  isDir : Bool
  stat : Option FileStat
  deriving Repr, DecidableEq

/-- The display row pushed onto `files` by the listing route.  `fileId`
and the metadata-dependent fields are `none` for unmanaged files (the
code renders `N/A` there). -/
structure DisplayFile where
  id : List Char
  fileId : Option (List Char)
  name : List Char
  size : Nat
  type : List Char
  downloads : Option Nat
  lastAccessed : Option (Option Nat)
  deriving Repr, DecidableEq

/-- Accumulator of the `entries.forEach` loop of the listing route:
the `folders` and `files` arrays plus the metadata store. -/
structure ListingState where
  folders : List (List Char)
  files : List DisplayFile
  store : Store

/-- Model of `path.join(currentPath, entry.name)` for
already-normalised inputs. -/
def joinPath (p n : List Char) : List Char :=
  if p = [] then n else p ++ '/' :: n

/-- The body of `entries.forEach` in the listing route (src/index.js
lines 272-362): directories become folder rows; a file whose stat
throws is caught, logged and skipped; an unmanaged file becomes a
display row straight from the stat; a managed file is reconciled into
the store and displayed from its (possibly just-created) record. -/
def processEntry (currentPath : List Char) (acc : ListingState)
    (e : DirEntry) : ListingState :=
  let entryPath := joinPath currentPath e.name
  if e.isDir then { acc with folders := acc.folders ++ [e.name] }
  else
    match e.stat with
    | none => acc
    | some st =>
      match parseFilename e.name with
      | none =>
        { acc with
          files := acc.files ++
            [{ id := e.name
               fileId := none
               name := e.name
               size := st.size
               type := getFileType e.name
               downloads := none
               lastAccessed := none }] }
      | some p =>
        let m' := reconcileEntry acc.store entryPath e.name st
        match m' p.fileId with
        | none => { acc with store := m' }
        | some r =>
          { acc with
            store := m'
            files := acc.files ++
              [{ id := entryPath
                 fileId := some p.fileId
                 name := p.originalName
                 size := r.size
                 type := r.type
                 downloads := some r.downloads
                 lastAccessed := some r.lastAccessed }] }

/-- The whole `entries.forEach` accumulation of the listing route (the
subsequent alphabetical sort is presentation and not modelled here). -/
def listDir (currentPath : List Char) (entries : List DirEntry)
    (m : Store) : ListingState :=
  entries.foldl (processEntry currentPath) ⟨[], [], m⟩

/-- Model of the ternary choosing `parsed.fileId` when the name decodes
and the string `N/A` otherwise — the id a route uses for the file
named by a request path. -/
def fidOf (filename : List Char) : List Char :=
  match parseFilename filename with
  | some p => p.fileId
  | none => S "N/A"

/-- The metadata effect of a successful download (src/index.js line 484):
`downloads` becomes the stored count plus one (`downloads || 0` only
re-reads the stored number) — or `1` if no record exists, in which case
`updateFileMetadata` drops the update anyway — and `lastAccessed` is
set to now. -/
def downloadStep (m : Store) (filename : List Char) (now : Nat) : Store :=
  let fid := fidOf filename
  let newCount : Nat :=
    match m fid with
    | some r => r.downloads + 1
    | none => 1
  updateFileMetadata m fid
    { downloads := some newCount, lastAccessed := some (some now) }

/-- The metadata effect of a preview or edit view (src/index.js lines
444 and 517): only `lastAccessed` is touched. -/
def previewStep (m : Store) (filename : List Char) (now : Nat) : Store :=
  updateFileMetadata m (fidOf filename)
    { lastAccessed := some (some now) }

/-- The metadata effect of an edit save (src/index.js line 546):
`size`, `lastModified` and `lastAccessed` are touched. -/
def editSaveStep (m : Store) (filename : List Char) (newSize now : Nat) :
    Store :=
  updateFileMetadata m (fidOf filename)
    { lastAccessed := some (some now)
      size := some newSize
      lastModified := some now }

/-- The new on-disk basename the rename route builds for a file
(src/index.js lines 654-661): the sanitised base of the requested new
name plus its extension (falling back to the old extension); `none`
models the 400 response for an empty sanitised base.  No timestamp or
id is re-encoded into the name. -/
def renameNewFilename (oldFilename newName : List Char) :
    Option (List Char) :=
  let newBase := sanitize (splitExt newName).1
  let newExt :=
    if (splitExt newName).2 = [] then (splitExt oldFilename).2
    else (splitExt newName).2
  if newBase = [] then none else some (newBase ++ newExt)

/-- The ten decimal digit characters. -/
def decDigitChars : List Char :=
  ['0', '1', '2', '3', '4', '5', '6', '7', '8', '9']

/-- A lowercase hexadecimal digit — the alphabet of the hex-encoded
`crypto.randomBytes(16)` ids. -/
def isLowerHexChar (c : Char) : Bool :=
  c.isDigit || ('a' ≤ c && c ≤ 'f')

/-- The nine categories named by the specification. -/
def categoriesNine : List (List Char) :=
  [S "image", S "pdf", S "document", S "text", S "code",
   S "archive", S "audio", S "video", S "other"]

/-- The eleven categories that actually occur as values of the
`getFileType` table, plus its default. -/
def categoriesEleven : List (List Char) :=
  [S "image", S "pdf", S "document", S "spreadsheet", S "presentation",
   S "text", S "code", S "archive", S "audio", S "video", S "other"]

end FileServer

namespace FileServer

/-! ### Basic lemmas about the codec building blocks -/

theorem sanitize_length (l : List Char) : (sanitize l).length = l.length :=
  List.length_map l _

theorem splitExt_append (l : List Char) :
    (splitExt l).1 ++ (splitExt l).2 = l := by
  unfold splitExt
  cases h : lastDotIdx l with
  | none => simp
  | some i =>
    cases i with
    | zero => simp
    | succ k =>
      by_cases hdd : l = ['.', '.']
      · simp [hdd]
      · simp [hdd, List.take_append_drop]

theorem digitChar_mem (d : Nat) : digitChar d ∈ decDigitChars := by
  unfold digitChar
  split <;> decide

theorem digitChar_toNat (d : Nat) (h : d < 10) :
    (digitChar d).toNat = 48 + d := by
  interval_cases d <;> decide

theorem natToDecGo_fuel (f : Nat) :
    ∀ f' n, n < f → n < f' → natToDecGo f n = natToDecGo f' n := by
  induction f with
  | zero => intro f' n h _; omega
  | succ g ih =>
    intro f' n h h'
    cases f' with
    | zero => omega
    | succ g' =>
      simp only [natToDecGo]
      by_cases h10 : n < 10
      · simp [h10]
      · have hd : n / 10 < n := Nat.div_lt_self (by omega) (by omega)
        simp only [h10, if_false]
        rw [ih g' (n / 10) (by omega) (by omega)]

theorem natToDec_lt10 (n : Nat) (h : n < 10) : natToDec n = [digitChar n] := by
  simp [natToDec, natToDecGo, h]

theorem natToDec_ge10 (n : Nat) (h : 10 ≤ n) :
    natToDec n = natToDec (n / 10) ++ [digitChar (n % 10)] := by
  have hd : n / 10 < n := Nat.div_lt_self (by omega) (by omega)
  have h1 : natToDecGo n (n / 10) = natToDecGo (n / 10 + 1) (n / 10) :=
    natToDecGo_fuel n (n / 10 + 1) (n / 10) (by omega) (by omega)
  have h2 : natToDec n = natToDecGo n (n / 10) ++ [digitChar (n % 10)] := by
    simp [natToDec, natToDecGo, Nat.not_lt.mpr h]
  rw [h2, h1]
  rfl

theorem natToDec_mem (n : Nat) : ∀ c ∈ natToDec n, c ∈ decDigitChars := by
  induction n using Nat.strong_induction_on with
  | _ n ih =>
    by_cases h : n < 10
    · rw [natToDec_lt10 n h]
      intro c hc
      simp at hc
      rw [hc]
      exact digitChar_mem n
    · rw [natToDec_ge10 n (by omega)]
      intro c hc
      rcases List.mem_append.mp hc with h1 | h2
      · exact ih (n / 10) (Nat.div_lt_self (by omega) (by omega)) c h1
      · simp at h2
        rw [h2]
        exact digitChar_mem (n % 10)

theorem natToDec_ne_nil (n : Nat) : natToDec n ≠ [] := by
  by_cases h : n < 10
  · rw [natToDec_lt10 n h]; simp
  · rw [natToDec_ge10 n (by omega)]; simp

theorem decValue_append_singleton (l : List Char) (c : Char) :
    decValue (l ++ [c]) = 10 * decValue l + (c.toNat - 48) := by
  simp [decValue, List.foldl_append]

theorem decValue_natToDec (n : Nat) : decValue (natToDec n) = n := by
  induction n using Nat.strong_induction_on with
  | _ n ih =>
    by_cases h : n < 10
    · rw [natToDec_lt10 n h]
      simp [decValue, digitChar_toNat n h]
    · rw [natToDec_ge10 n (by omega), decValue_append_singleton,
        ih (n / 10) (Nat.div_lt_self (by omega) (by omega)),
        digitChar_toNat (n % 10) (by omega)]
      omega

theorem takeWhile_all (p : Char → Bool) (l : List Char)
    (h : ∀ c ∈ l, p c = true) : l.takeWhile p = l := by
  induction l with
  | nil => rfl
  | cons c rest ih =>
    have hc := h c (by simp)
    have hr := ih (fun x hx => h x (by simp [hx]))
    simp [List.takeWhile_cons, hc, hr]

theorem decDigit_char_facts (c : Char) (h : c ∈ decDigitChars) :
    isJsWhitespace c = false ∧ c ≠ '-' ∧ c ≠ '+' ∧ c.isDigit = true ∧
      c ≠ 'x' ∧ c ≠ 'X' := by
  unfold decDigitChars at h
  fin_cases h <;> refine ⟨by decide, by decide, by decide, by decide,
    by decide, by decide⟩

theorem parseDecDigits_all (l : List Char)
    (h : ∀ c ∈ l, c ∈ decDigitChars) (hne : l ≠ []) :
    parseDecDigits l = some (decValue l) := by
  have hall : ∀ c ∈ l, c.isDigit = true :=
    fun c hc => (decDigit_char_facts c (h c hc)).2.2.2.1
  simp [parseDecDigits, takeWhile_all Char.isDigit l hall, hne]

theorem parseIntUnsigned_digits (l : List Char)
    (h : ∀ c ∈ l, c ∈ decDigitChars) (hne : l ≠ []) :
    parseIntUnsigned l = some (decValue l) := by
  have hdec := parseDecDigits_all l h hne
  cases l with
  | nil => exact absurd rfl hne
  | cons c t =>
    cases t with
    | nil => exact hdec
    | cons x t' =>
      have hfx := decDigit_char_facts x (h x (by simp))
      have hstep : parseIntUnsigned (c :: x :: t') =
          if c = '0' ∧ (x = 'x' ∨ x = 'X') then parseHexDigits t'
          else parseDecDigits (c :: x :: t') := rfl
      rw [hstep, if_neg (fun hcon => by tauto)]
      exact hdec

theorem jsParseInt_digits (l : List Char)
    (h : ∀ c ∈ l, c ∈ decDigitChars) (hne : l ≠ []) :
    jsParseInt l = some ((decValue l : Nat) : Int) := by
  obtain ⟨c, rest, hl⟩ := List.exists_cons_of_ne_nil hne
  subst hl
  have hc := decDigit_char_facts c (h c (by simp))
  have hdw : (c :: rest).dropWhile isJsWhitespace = c :: rest := by
    simp [List.dropWhile_cons, hc.1]
  have hstep : jsParseInt (c :: rest) =
      if c = '-' then (parseIntUnsigned rest).map (fun v => -(Int.ofNat v))
      else if c = '+' then (parseIntUnsigned rest).map Int.ofNat
      else (parseIntUnsigned (c :: rest)).map Int.ofNat := by
    unfold jsParseInt
    rw [hdw]
  rw [hstep, if_neg hc.2.1, if_neg hc.2.2.1,
    parseIntUnsigned_digits (c :: rest) h hne]
  rfl

theorem jsParseInt_natToDec (n : Nat) :
    jsParseInt (natToDec n) = some (n : Int) := by
  rw [jsParseInt_digits (natToDec n) (natToDec_mem n) (natToDec_ne_nil n),
    decValue_natToDec]

theorem splitOnDash_ne_nil (l : List Char) : splitOnDash l ≠ [] := by
  cases l with
  | nil => simp [splitOnDash]
  | cons c rest =>
    by_cases hc : c = '-'
    · simp [splitOnDash, hc]
    · cases h : splitOnDash rest with
      | nil => simp [splitOnDash, hc, h]
      | cons p ps => simp [splitOnDash, hc, h]

theorem splitOnDash_append (a rest : List Char) (h : '-' ∉ a) :
    splitOnDash (a ++ '-' :: rest) = a :: splitOnDash rest := by
  induction a with
  | nil => simp [splitOnDash]
  | cons c a' ih =>
    have hc : c ≠ '-' := fun hh => h (by simp [hh])
    have h' : '-' ∉ a' := fun hh => h (by simp [hh])
    simp [splitOnDash, hc, ih h']

theorem joinDash_splitOnDash (l : List Char) :
    joinDash (splitOnDash l) = l := by
  induction l with
  | nil => simp [splitOnDash, joinDash]
  | cons c rest ih =>
    by_cases hc : c = '-'
    · subst hc
      cases h : splitOnDash rest with
      | nil => exact absurd h (splitOnDash_ne_nil rest)
      | cons p ps =>
        rw [h] at ih
        simp [splitOnDash, h, joinDash, ih]
    · cases h : splitOnDash rest with
      | nil => exact absurd h (splitOnDash_ne_nil rest)
      | cons p ps =>
        rw [h] at ih
        cases ps with
        | nil =>
          simp only [joinDash] at ih
          simp [splitOnDash, hc, h, joinDash, ih]
        | cons q qs =>
          simp only [joinDash] at ih
          simp [splitOnDash, hc, h, joinDash, ih]

theorem splitOnDash_length (l : List Char) :
    (splitOnDash l).length = l.count '-' + 1 := by
  induction l with
  | nil => simp [splitOnDash]
  | cons c rest ih =>
    by_cases hc : c = '-'
    · subst hc
      simp [splitOnDash, ih, List.count_cons]
    · cases h : splitOnDash rest with
      | nil => exact absurd h (splitOnDash_ne_nil rest)
      | cons p ps =>
        rw [h] at ih
        simp only [List.length_cons] at ih
        simp [splitOnDash, hc, h, List.count_cons]
        omega

theorem parseFilename_short (l : List Char)
    (h : (splitOnDash l).length < 3) : parseFilename l = none := by
  unfold parseFilename
  rcases hs : splitOnDash l with _ | ⟨a, _ | ⟨b, _ | ⟨c, cs⟩⟩⟩
  · rfl
  · rfl
  · rfl
  · rw [hs] at h
    simp at h
    omega

theorem nameSeg_length (n : List Char) :
    (sanitize (splitExt n).1 ++ (splitExt n).2).length = n.length := by
  rw [List.length_append, sanitize_length]
  conv_rhs => rw [← splitExt_append n]
  rw [List.length_append]

theorem nameSeg_ne_nil (n : List Char) (hn : n ≠ []) :
    sanitize (splitExt n).1 ++ (splitExt n).2 ≠ [] := by
  intro hnil
  apply hn
  have hl := nameSeg_length n
  rw [hnil] at hl
  simp at hl
  exact List.length_eq_zero.mp hl.symm

theorem reconcileEntry_managed (m : Store) (entryPath entryName : List Char)
    (st : FileStat) (p : ParsedFile)
    (hp : parseFilename entryName = some p) :
    reconcileEntry m entryPath entryName st =
      match m p.fileId with
      | none =>
        updStore m p.fileId (firstSightRecord p entryPath entryName st)
      | some r =>
        updStore m p.fileId { r with
          size := st.size
          path := entryPath
          lastModified := st.mtime
          type := getFileType entryName } := by
  unfold reconcileEntry
  rw [hp]

/-! ### The claims -/

/-- C1, counterexample: the claim predicates the round-trip on
sanitisation of the *whole* original name, extension included.  For the
original name `"a.b c"` the code sanitises only the base `"a"` and
appends the extension `".b c"` untouched, so the decoded
`originalName` is `"a.b c"`, not the fully sanitised `"a.b_c"`. -/
theorem C1_codec_roundtrip_counterexample :
    (parseFilename (encodeFilename 1700 (S "abc123") (S "a.b c"))).map
      ParsedFile.originalName ≠ some (sanitize (S "a.b c")) := by
  decide

/-- C1, amended: for every timestamp `t ≥ 0`, every non-empty lowercase
hex id, and every non-empty slash-free original name `n`, decoding the
encoded filename returns the timestamp and id unchanged together with
`sanitize(base of n) ++ extension of n` — sanitisation is applied
exactly once, but only to the base name; the extension is appended
unsanitised. -/
theorem C1_codec_roundtrip_amended (t : Nat) (id n : List Char)
    (hid : id ≠ []) (hhex : ∀ c ∈ id, isLowerHexChar c = true)
    (hn : n ≠ []) (hslash : '/' ∉ n) :
    parseFilename (encodeFilename t id n) =
      some ⟨(t : Int), id, sanitize (splitExt n).1 ++ (splitExt n).2⟩ := by
  have hdashId : '-' ∉ id := by
    intro hmem
    exact absurd (hhex '-' hmem) (by decide)
  have hdashT : '-' ∉ natToDec t := by
    intro hmem
    exact absurd (natToDec_mem t '-' hmem) (by decide)
  set seg := sanitize (splitExt n).1 ++ (splitExt n).2 with hseg
  have hsegne : seg ≠ [] := hseg ▸ nameSeg_ne_nil n hn
  have hform : encodeFilename t id n =
      natToDec t ++ '-' :: (id ++ '-' :: seg) := by
    simp [encodeFilename, hseg, List.append_assoc]
  have hsplit : splitOnDash (natToDec t ++ '-' :: (id ++ '-' :: seg)) =
      natToDec t :: id :: splitOnDash seg := by
    rw [splitOnDash_append _ _ hdashT, splitOnDash_append _ _ hdashId]
  obtain ⟨q, qs, hq⟩ := List.exists_cons_of_ne_nil (splitOnDash_ne_nil seg)
  have hjoin : joinDash (q :: qs) = seg := by
    rw [← hq, joinDash_splitOnDash]
  have hred : parseFilename (encodeFilename t id n) =
      match jsParseInt (natToDec t) with
      | none => none
      | some ts =>
        if id = [] ∨ joinDash (q :: qs) = [] then none
        else some (⟨ts, id, joinDash (q :: qs)⟩ : ParsedFile) := by
    unfold parseFilename
    rw [hform, hsplit, hq]
  rw [hred, jsParseInt_natToDec]
  show (if id = [] ∨ joinDash (q :: qs) = [] then none
    else some (⟨(t : Int), id, joinDash (q :: qs)⟩ : ParsedFile)) =
      some (⟨(t : Int), id, seg⟩ : ParsedFile)
  rw [hjoin, if_neg (not_or.mpr ⟨hid, hsegne⟩)]

/-- C1, witness: the concrete scenario of the specification — uploading
`My Report (final).pdf` at a timestamp with id `abc123` — decodes back
to the base-sanitised name `My_Report__final_.pdf`. -/
theorem C1_codec_roundtrip_witness :
    parseFilename (encodeFilename 1700 (S "abc123")
        (S "My Report (final).pdf")) =
      some ⟨1700, S "abc123",
        sanitize (splitExt (S "My Report (final).pdf")).1 ++
          (splitExt (S "My Report (final).pdf")).2⟩ ∧
    sanitize (splitExt (S "My Report (final).pdf")).1 ++
        (splitExt (S "My Report (final).pdf")).2 =
      S "My_Report__final_.pdf" :=
  ⟨C1_codec_roundtrip_amended 1700 (S "abc123")
      (S "My Report (final).pdf") (by decide) (by decide) (by decide)
      (by decide),
    by decide⟩

/-- C2, counterexample: a managed file (its name decodes to the id
`abc123`) renamed to `notes.txt` gets the on-disk name `notes.txt`,
which does not decode at all — the rename route does not re-encode the
timestamp and id into the new name. -/
theorem C2_rename_identity_counterexample :
    parseFilename (S "1700-abc123-report.txt") =
      some ⟨1700, S "abc123", S "report.txt"⟩ ∧
    renameNewFilename (S "1700-abc123-report.txt") (S "notes.txt") =
      some (S "notes.txt") ∧
    parseFilename (S "notes.txt") = none := by
  decide

/-- C2, amended: the rename route replaces the whole encoded name by
the sanitised new base plus extension, without re-encoding the
timestamp or id; whenever that new name carries fewer than two `'-'`
characters the renamed file no longer decodes as managed at all. -/
theorem C2_rename_identity_amended (old new f : List Char)
    (p : ParsedFile) (hold : parseFilename old = some p)
    (hren : renameNewFilename old new = some f)
    (hdash : f.count '-' < 2) :
    parseFilename f = none ∧
    f = sanitize (splitExt new).1 ++
      (if (splitExt new).2 = [] then (splitExt old).2
       else (splitExt new).2) := by
  refine ⟨parseFilename_short f (by rw [splitOnDash_length]; omega), ?_⟩
  simp only [renameNewFilename] at hren
  by_cases hb : sanitize (splitExt new).1 = []
  · simp [hb] at hren
  · simp only [hb, if_false, Option.some.injEq] at hren
    exact hren.symm

/-- C2, witness for the amended theorem at the counterexample's
concrete input. -/
theorem C2_rename_identity_witness :
    parseFilename (S "notes.txt") = none ∧
    S "notes.txt" = sanitize (splitExt (S "notes.txt")).1 ++
      (if (splitExt (S "notes.txt")).2 = [] then
        (splitExt (S "1700-abc123-report.txt")).2
       else (splitExt (S "notes.txt")).2) :=
  C2_rename_identity_amended (S "1700-abc123-report.txt") (S "notes.txt")
    (S "notes.txt") ⟨1700, S "abc123", S "report.txt"⟩ (by decide)
    (by decide) (by decide)

/-- C3, counterexample: `getFileType` also returns `spreadsheet` (for
`xls`/`xlsx`; likewise `presentation` for `ppt`/`pptx`), which is not
among the nine categories the claim allows. -/
theorem C3_classifier_counterexample :
    getFileType (S "report.xls") = S "spreadsheet" ∧
    S "spreadsheet" ∉ categoriesNine := by
  decide

theorem lookupType_mem (ext : List Char)
    (tbl : List (List Char × List Char)) (cats : List (List Char))
    (htbl : ∀ kv ∈ tbl, kv.2 ∈ cats) (hdef : S "other" ∈ cats) :
    lookupType ext tbl ∈ cats := by
  induction tbl with
  | nil => exact hdef
  | cons kv rest ih =>
    obtain ⟨k, v⟩ := kv
    show (if ext = k then v else lookupType ext rest) ∈ cats
    by_cases h : ext = k
    · rw [if_pos h]
      exact htbl (k, v) (by simp)
    · rw [if_neg h]
      exact ih (fun kv hkv => htbl kv (by simp [hkv]))

theorem lookupType_eq_own (ext : List Char)
    (tbl : List (List Char × List Char)) :
    lookupType ext tbl = (lookupTypeOwn ext tbl).getD (S "other") := by
  induction tbl with
  | nil => rfl
  | cons kv rest ih =>
    obtain ⟨k, v⟩ := kv
    show (if ext = k then v else lookupType ext rest) = _
    by_cases h : ext = k
    · simp [lookupTypeOwn, h]
    · simp [lookupTypeOwn, h, ih]

/-- C3, amended: for every filename whose lowercased extension is not
one of the inherited `Object.prototype` names `constructor` and
`__proto__`, the classifier returns a category string among exactly
the eleven categories image, pdf, document, spreadsheet, presentation,
text, code, archive, audio, video, other (the table also maps to
spreadsheet and presentation); for those two extensions the lookup
resolves a truthy inherited non-category object instead, so the
`other` fallback does not fire; unknown extensions (e.g.
`archive.xyz123`) and missing extensions (e.g. `noext`) still map to
`other`. -/
theorem C3_classifier_amended :
    (∀ l, extKey l ∉ inheritedObjectProps →
      getFileTypeJs l = TypeLookupResult.category (getFileType l) ∧
      getFileType l ∈ categoriesEleven) ∧
    getFileTypeJs (S "x.constructor") = TypeLookupResult.inheritedObject ∧
    getFileTypeJs (S "x.__proto__") = TypeLookupResult.inheritedObject ∧
    getFileTypeJs (S "archive.xyz123") =
      TypeLookupResult.category (S "other") ∧
    getFileTypeJs (S "noext") = TypeLookupResult.category (S "other") := by
  refine ⟨fun l h => ⟨?_, ?_⟩, by decide, by decide, by decide, by decide⟩
  · have hg : getFileType l = lookupType (extKey l) typeMapList := rfl
    unfold getFileTypeJs
    cases ho : lookupTypeOwn (extKey l) typeMapList with
    | some v =>
      show TypeLookupResult.category v =
        TypeLookupResult.category (getFileType l)
      rw [hg, lookupType_eq_own, ho]
      rfl
    | none =>
      show (if extKey l ∈ inheritedObjectProps then
          TypeLookupResult.inheritedObject
        else TypeLookupResult.category (S "other")) =
          TypeLookupResult.category (getFileType l)
      rw [if_neg h, hg, lookupType_eq_own, ho]
      rfl
  · unfold getFileType
    exact lookupType_mem _ typeMapList categoriesEleven (by decide)
      (by decide)

/-- C3, witness for the amended theorem: `report.xls` misses the
inherited names, so the full JavaScript lookup yields the category
string computed by the table, which lies among the eleven
categories. -/
theorem C3_classifier_witness :
    getFileTypeJs (S "report.xls") =
      TypeLookupResult.category (getFileType (S "report.xls")) ∧
    getFileType (S "report.xls") ∈ categoriesEleven :=
  C3_classifier_amended.1 (S "report.xls") (by decide)

/-- C5, counterexample: `"12abc"` is not a valid integer, yet
decode succeeds with timestamp 12, because JavaScript `parseInt` takes
the longest leading digit run instead of validating the whole
segment. -/
theorem C5_decode_reject_counterexample :
    parseFilename (S "12abc-abc123-file.txt") =
      some ⟨12, S "abc123", S "file.txt"⟩ := by
  decide

/-- C5, amended: decode returns null for every input with fewer than
three `'-'`-delimited segments, and for every input whose first segment
has no leading integer (JavaScript `parseInt` yields NaN); in
particular for `"readme.txt"` and `"notanumber-abc123-file.txt"`.  A
first segment that merely *starts* with digits is accepted. -/
theorem C5_decode_reject_amended :
    (∀ l, (splitOnDash l).length < 3 → parseFilename l = none) ∧
    (∀ l, jsParseInt ((splitOnDash l).headD []) = none →
      parseFilename l = none) ∧
    parseFilename (S "readme.txt") = none ∧
    parseFilename (S "notanumber-abc123-file.txt") = none := by
  refine ⟨fun l h => parseFilename_short l h, fun l h => ?_,
    by decide, by decide⟩
  unfold parseFilename
  rcases hs : splitOnDash l with _ | ⟨a, _ | ⟨b, _ | ⟨c, cs⟩⟩⟩
  · rfl
  · rfl
  · rfl
  · rw [hs] at h
    simp only [List.headD_cons] at h
    show (match jsParseInt a with
      | none => none
      | some ts =>
        if b = [] ∨ joinDash (c :: cs) = [] then none
        else some (⟨ts, b, joinDash (c :: cs)⟩ : ParsedFile)) = none
    rw [h]

/-- C5, witness for the amended theorem: a one-segment name and a
NaN-timestamp name both decode to null. -/
theorem C5_decode_reject_witness :
    parseFilename (S "x") = none ∧
    parseFilename (S "v1.2-abc123-file.txt") = none :=
  ⟨C5_decode_reject_amended.1 (S "x") (by decide),
    C5_decode_reject_amended.2.1 (S "v1.2-abc123-file.txt") (by decide)⟩

/-- C6, counterexample: there is no placeholder fallback — for the
empty original name (the only name whose sanitised form is empty,
since sanitisation replaces rather than deletes characters) the
encoded filename ends in a dangling `'-'` with an empty final
segment. -/
theorem C6_empty_name_counterexample :
    sanitize (S "") = S "" ∧
    encodeFilename 1700 (S "abc123") (S "") = S "1700-abc123-" ∧
    (splitOnDash (encodeFilename 1700 (S "abc123") (S ""))).getLast? =
      some [] := by
  decide

/-- C6, amended: sanitisation replaces every disallowed character by
an underscore and never deletes, so for every non-empty slash-free
original name the final name segment of the encoded filename is
non-empty without any placeholder token being substituted; only the
empty original name yields an empty segment. -/
theorem C6_empty_name_amended (t : Nat) (id n : List Char) (hn : n ≠ [])
    (hslash : '/' ∉ n) :
    encodeFilename t id n =
      natToDec t ++ '-' :: id ++ '-' ::
        (sanitize (splitExt n).1 ++ (splitExt n).2) ∧
    sanitize (splitExt n).1 ++ (splitExt n).2 ≠ [] :=
  ⟨rfl, nameSeg_ne_nil n hn⟩

/-- C6, witness: a name of only special characters still yields the
non-empty segment `"___"`, not a placeholder. -/
theorem C6_empty_name_witness :
    (encodeFilename 1700 (S "abc123") (S "???") =
      natToDec 1700 ++ '-' :: S "abc123" ++ '-' ::
        (sanitize (splitExt (S "???")).1 ++ (splitExt (S "???")).2) ∧
     sanitize (splitExt (S "???")).1 ++ (splitExt (S "???")).2 ≠ []) ∧
    encodeFilename 1700 (S "abc123") (S "???") = S "1700-abc123-___" :=
  ⟨C6_empty_name_amended 1700 (S "abc123") (S "???") (by decide)
      (by decide),
    by decide⟩

/-- C10, confirmed: decode additionally rejects an empty id segment and
an empty re-joined original name, so every successful decode has a
non-empty id and a non-empty original name. -/
theorem C10_decode_nonempty_fields :
    parseFilename (S "1700--name.txt") = none ∧
    parseFilename (S "1700-abc123-") = none ∧
    ∀ l p, parseFilename l = some p →
      p.fileId ≠ [] ∧ p.originalName ≠ [] := by
  refine ⟨by decide, by decide, fun l p h => ?_⟩
  rcases hs : splitOnDash l with _ | ⟨a, _ | ⟨b, _ | ⟨c, cs⟩⟩⟩
  · rw [parseFilename_short l (by rw [hs]; simp)] at h
    exact Option.noConfusion h
  · rw [parseFilename_short l (by rw [hs]; simp)] at h
    exact Option.noConfusion h
  · rw [parseFilename_short l (by rw [hs]; simp)] at h
    exact Option.noConfusion h
  · unfold parseFilename at h
    rw [hs] at h
    have h' : (match jsParseInt a with
      | none => none
      | some ts =>
        if b = [] ∨ joinDash (c :: cs) = [] then none
        else some (⟨ts, b, joinDash (c :: cs)⟩ : ParsedFile)) = some p := h
    cases hjs : jsParseInt a with
    | none =>
      rw [hjs] at h'
      exact Option.noConfusion h'
    | some ts =>
      rw [hjs] at h'
      have h2 : (if b = [] ∨ joinDash (c :: cs) = [] then none
        else some (⟨ts, b, joinDash (c :: cs)⟩ : ParsedFile)) = some p := h'
      by_cases hcond : b = [] ∨ joinDash (c :: cs) = []
      · rw [if_pos hcond] at h2
        exact Option.noConfusion h2
      · rw [if_neg hcond] at h2
        push_neg at hcond
        rw [(Option.some.inj h2).symm]
        exact ⟨hcond.1, hcond.2⟩

/-- C10, witness: a successful decode at a concrete input has
non-empty id and original name. -/
theorem C10_decode_nonempty_fields_witness :
    (S "abc" : List Char) ≠ [] ∧ (S "x.txt" : List Char) ≠ [] :=
  C10_decode_nonempty_fields.2.2 (S "1700-abc-x.txt")
    ⟨1700, S "abc", S "x.txt"⟩ (by decide)

/-- C4, confirmed: for a managed entry whose decoded id is absent from
the store, one listing pass creates exactly one new record for that id
with `downloads = 0` and `lastAccessed = null`, leaving every other id
untouched; when the id is present, the pass refreshes only `size`,
`path`, `lastModified` and `type` from the current stat and name,
keeping `downloads`, `lastAccessed`, `uploaded` and the names. -/
theorem C4_first_sight_reconciliation (m : Store)
    (entryPath entryName : List Char) (st : FileStat) (p : ParsedFile)
    (hp : parseFilename entryName = some p) :
    (m p.fileId = none →
      (reconcileEntry m entryPath entryName st) p.fileId =
        some (firstSightRecord p entryPath entryName st) ∧
      (firstSightRecord p entryPath entryName st).downloads = 0 ∧
      (firstSightRecord p entryPath entryName st).lastAccessed = none ∧
      ∀ j, j ≠ p.fileId →
        (reconcileEntry m entryPath entryName st) j = m j) ∧
    (∀ r, m p.fileId = some r →
      (reconcileEntry m entryPath entryName st) p.fileId =
        some { r with
          size := st.size
          path := entryPath
          lastModified := st.mtime
          type := getFileType entryName } ∧
      ∀ j, j ≠ p.fileId →
        (reconcileEntry m entryPath entryName st) j = m j) := by
  have hm := reconcileEntry_managed m entryPath entryName st p hp
  constructor
  · intro habs
    rw [habs] at hm
    refine ⟨?_, rfl, rfl, ?_⟩
    · rw [hm]
      simp [updStore]
    · intro j hj
      rw [hm]
      simp [updStore, hj]
  · intro r hr
    rw [hr] at hm
    refine ⟨by rw [hm]; simp [updStore], ?_⟩
    intro j hj
    rw [hm]
    simp [updStore, hj]

/-- C4, witness: a fresh store gains exactly the zero-download,
never-accessed record on first sight of a managed file. -/
theorem C4_first_sight_reconciliation_witness :
    (reconcileEntry (fun _ => none) (S "1700-abc-file.txt")
        (S "1700-abc-file.txt") ⟨10, 5, 5⟩) (S "abc") =
      some (firstSightRecord ⟨1700, S "abc", S "file.txt"⟩
        (S "1700-abc-file.txt") (S "1700-abc-file.txt") ⟨10, 5, 5⟩) ∧
    (firstSightRecord ⟨1700, S "abc", S "file.txt"⟩
      (S "1700-abc-file.txt") (S "1700-abc-file.txt")
      ⟨10, 5, 5⟩).downloads = 0 ∧
    (firstSightRecord ⟨1700, S "abc", S "file.txt"⟩
      (S "1700-abc-file.txt") (S "1700-abc-file.txt")
      ⟨10, 5, 5⟩).lastAccessed = none := by
  have h := C4_first_sight_reconciliation (fun _ => none)
    (S "1700-abc-file.txt") (S "1700-abc-file.txt") ⟨10, 5, 5⟩
    ⟨1700, S "abc", S "file.txt"⟩ (by decide)
  have h1 := h.1 rfl
  exact ⟨h1.1, h1.2.1, h1.2.2.1⟩

/-- C7, confirmed: a directory pass over entries containing one file
entry whose stat throws produces exactly the result of the pass
without that entry — the failing entry is excluded, every other entry
is processed, and nothing is raised (the fold is total). -/
theorem C7_partial_listing_tolerance (cp : List Char) (m : Store)
    (xs ys : List DirEntry) (bad : DirEntry)
    (h1 : bad.isDir = false) (h2 : bad.stat = none) :
    listDir cp (xs ++ bad :: ys) m = listDir cp (xs ++ ys) m := by
  unfold listDir
  rw [List.foldl_append, List.foldl_append, List.foldl_cons]
  have hbad : ∀ acc, processEntry cp acc bad = acc := by
    intro acc
    simp [processEntry, h1, h2]
  rw [hbad]

/-- C7, witness: a three-entry directory whose middle file cannot be
stat-ed lists exactly like the two-entry directory without it. -/
theorem C7_partial_listing_tolerance_witness :
    listDir (S "") [⟨S "readme.txt", false, some ⟨7, 3, 3⟩⟩,
        ⟨S "1700-abc-gone.txt", false, none⟩, ⟨S "docs", true, none⟩]
      (fun _ => none) =
    listDir (S "") [⟨S "readme.txt", false, some ⟨7, 3, 3⟩⟩,
        ⟨S "docs", true, none⟩] (fun _ => none) :=
  C7_partial_listing_tolerance (S "") (fun _ => none)
    [⟨S "readme.txt", false, some ⟨7, 3, 3⟩⟩] [⟨S "docs", true, none⟩]
    ⟨S "1700-abc-gone.txt", false, none⟩ rfl rfl

theorem downloadStep_downloads (m : Store) (fn : List Char) (now : Nat)
    (p : ParsedFile) (hp : parseFilename fn = some p) :
    ((downloadStep m fn now) p.fileId).map FileRecord.downloads =
      ((m p.fileId).map FileRecord.downloads).map (· + 1) := by
  have hfid : fidOf fn = p.fileId := by
    unfold fidOf
    rw [hp]
  simp only [downloadStep, hfid]
  cases hm : m p.fileId with
  | none => simp [updateFileMetadata, hm]
  | some r => simp [updateFileMetadata, hm, updStore, applyUpdates]

/-- C8, confirmed: starting from a stored record with `downloads = 0`,
N successful downloads leave `downloads = N` (hence the counter is
non-decreasing across downloads), while the preview, edit-save and
listing-refresh operations never change `downloads`. -/
theorem C8_download_counter (m : Store) (fn : List Char) (now : Nat)
    (p : ParsedFile) (r : FileRecord) (N : Nat)
    (hp : parseFilename fn = some p) (hr : m p.fileId = some r)
    (h0 : r.downloads = 0) :
    ((((fun s => downloadStep s fn now)^[N]) m) p.fileId).map
      FileRecord.downloads = some N ∧
    (∀ m2 now2, ((previewStep m2 fn now2) p.fileId).map
      FileRecord.downloads = (m2 p.fileId).map FileRecord.downloads) ∧
    (∀ m2 sz now2, ((editSaveStep m2 fn sz now2) p.fileId).map
      FileRecord.downloads = (m2 p.fileId).map FileRecord.downloads) ∧
    (∀ m2 pa st r2, m2 p.fileId = some r2 →
      ((reconcileEntry m2 pa fn st) p.fileId).map FileRecord.downloads =
        some r2.downloads) := by
  have hfid : fidOf fn = p.fileId := by
    unfold fidOf
    rw [hp]
  have main : ∀ k, ((((fun s => downloadStep s fn now)^[k]) m)
      p.fileId).map FileRecord.downloads = some (r.downloads + k) := by
    intro k
    induction k with
    | zero => simp [hr]
    | succ k ih =>
      rw [Function.iterate_succ_apply',
        downloadStep_downloads _ fn now p hp, ih]
      rfl
  refine ⟨by rw [main N, h0]; simp, ?_, ?_, ?_⟩
  · intro m2 now2
    simp only [previewStep, hfid]
    cases hm : m2 p.fileId with
    | none => simp [updateFileMetadata, hm]
    | some r2 => simp [updateFileMetadata, hm, updStore, applyUpdates]
  · intro m2 sz now2
    simp only [editSaveStep, hfid]
    cases hm : m2 p.fileId with
    | none => simp [updateFileMetadata, hm]
    | some r2 => simp [updateFileMetadata, hm, updStore, applyUpdates]
  · intro m2 pa st r2 hm2
    have hrm := reconcileEntry_managed m2 pa fn st p hp
    rw [hm2] at hrm
    rw [hrm]
    simp [updStore]

/-- C8, witness: three downloads of a freshly reconciled file leave a
stored count of three. -/
theorem C8_download_counter_witness :
    ((((fun s => downloadStep s (S "1700-abc-file.txt") 99)^[3])
        (updStore (fun _ => none) (S "abc")
          (firstSightRecord ⟨1700, S "abc", S "file.txt"⟩
            (S "1700-abc-file.txt") (S "1700-abc-file.txt")
            ⟨10, 5, 5⟩)))
      (S "abc")).map FileRecord.downloads = some 3 := by
  have h := C8_download_counter
    (updStore (fun _ => none) (S "abc")
      (firstSightRecord ⟨1700, S "abc", S "file.txt"⟩
        (S "1700-abc-file.txt") (S "1700-abc-file.txt") ⟨10, 5, 5⟩))
    (S "1700-abc-file.txt") 99 ⟨1700, S "abc", S "file.txt"⟩
    (firstSightRecord ⟨1700, S "abc", S "file.txt"⟩
      (S "1700-abc-file.txt") (S "1700-abc-file.txt") ⟨10, 5, 5⟩) 3
    (by decide) (by simp [updStore]) rfl
  exact h.1

/-- C9, confirmed: `updateFileMetadata` on an id with no stored record
leaves the store completely unchanged, so a download or preview whose
computed id (including the `N/A` id of unmanaged names) has no
record silently loses its `downloads`/`lastAccessed` update and
creates nothing. -/
theorem C9_unknown_id_update_dropped (m : Store) (i : List Char)
    (u : MetaUpdates) (h : m i = none) :
    updateFileMetadata m i u = m ∧
    (∀ fn now, fidOf fn = i → downloadStep m fn now = m) ∧
    (∀ fn now, fidOf fn = i → previewStep m fn now = m) := by
  have hbase : ∀ u', updateFileMetadata m i u' = m := by
    intro u'
    unfold updateFileMetadata
    rw [h]
  refine ⟨hbase u, ?_, ?_⟩
  · intro fn now hfid
    simp only [downloadStep, hfid]
    exact hbase _
  · intro fn now hfid
    simp only [previewStep, hfid]
    exact hbase _

/-- C9, witness: a download of an unmanaged name (id `N/A`) against
an empty store changes nothing. -/
theorem C9_unknown_id_update_dropped_witness :
    updateFileMetadata (fun _ => none) (S "N/A")
      { downloads := some 5 } = (fun _ => none) ∧
    downloadStep (fun _ => none) (S "readme.txt") 42 =
      (fun _ => none) := by
  have h := C9_unknown_id_update_dropped (fun _ => none) (S "N/A")
    { downloads := some 5 } rfl
  exact ⟨h.1, h.2.1 (S "readme.txt") 42 (by decide)⟩

end FileServer
